import Mathlib

/-!
Shallow embedding of the adaptive PDF compression engine
(compressPDF and its helpers) of the foldr backend.

The filesystem is modelled as a map from paths to byte lists; the
external command runner is modelled by an oracle (Env.outcome) telling,
for each strategy, whether the execAsync call resolved or threw and what
bytes the tool left at the candidate path.  Every definition mirrors the
corresponding JavaScript source line by line.
-/

namespace Foldr

/-- Bytes of a file, modelled as a list of byte values. -/
abbrev Bytes := List Nat

/-- The filesystem: a map from path strings to file contents. -/
abbrev FS := String → Option Bytes

/-- The empty filesystem. -/
def fsEmpty : FS := fun _ => none

/-- Write (create or overwrite) a file. -/
def fsSet (fs : FS) (p : String) (b : Bytes) : FS :=
  fun q => if q = p then some b else fs q

/-- Delete a file (models fs.unlinkSync after an existsSync guard). -/
def fsDel (fs : FS) (p : String) : FS :=
  fun q => if q = p then none else fs q

/-- Does a file exist (models fs.existsSync)? -/
def fsExists (fs : FS) (p : String) : Bool :=
  (fs p).isSome

/-- Atomic rename (models fs.renameSync when the source exists). -/
def fsRename (fs : FS) (src dst : String) : FS :=
  match fs src with
  | some b => fsSet (fsDel fs src) dst b
  | none => fs

/-- getFileSize from the source: statSync size, or 0 when stat throws
(missing file). -/
def getFileSize (fs : FS) (p : String) : Nat :=
  match fs p with
  | some b => b.length
  | none => 0

/-- A catalog entry: strategy name and required tool family. -/
structure Strategy where
  name : String
  tool : String
deriving DecidableEq

/-- The strategy catalog, in source order (lines 56-63 of the module). -/
def strategies : List Strategy :=
  [ ⟨"ghostscript_aggressive", "ghostscript"⟩,
    ⟨"qpdf_aggressive", "qpdf"⟩,
    ⟨"ghostscript_ebook", "ghostscript"⟩,
    ⟨"ghostscript_printer", "ghostscript"⟩,
    ⟨"ghostscript_prepress", "ghostscript"⟩,
    ⟨"qpdf_linearize", "qpdf"⟩ ]

/-- Result record returned by compressPDF (and used for the running
best).  The compression ratio is kept as an exact rational. -/
structure CompressionResult where
  success : Bool
  outputPath : String
  originalSize : Nat
  compressedSize : Nat
  compressionRatio : ℚ
  strategy : String
  error : Option String
deriving DecidableEq

/-- Outcome of one execAsync call on a strategy command: either the
promise resolved (ok) or it threw (threw: non-zero exit, spawn error or
timeout).  In both cases the tool may have left bytes at the candidate
path (none means no file was written). -/
inductive ExecOutcome where
  | ok (written : Option Bytes)
  | threw (written : Option Bytes)
deriving DecidableEq

/-- Did the execAsync call resolve? -/
def ExecOutcome.resolved : ExecOutcome → Bool
  | .ok _ => true
  | .threw _ => false

/-- Bytes written by an outcome at the candidate path. -/
def ExecOutcome.written : ExecOutcome → Option Bytes
  | .ok w => w
  | .threw w => w

/-- Environment of one compressPDF call: tool availability as probed,
the behaviour of each strategy subprocess, and whether the finalize
filesystem operations succeed (renameOk, copyOk model disk state). -/
structure Env where
  qpdfAvailable : Bool
  gsAvailable : Bool
  outcome : String → ExecOutcome
  renameOk : Bool
  copyOk : Bool

/-- Apply the bytes an outcome left at a path. -/
def applyWrite (fs : FS) (p : String) (w : Option Bytes) : FS :=
  match w with
  | some b => fsSet fs p b
  | none => fs

/-- The skip condition of the loop (lines 91-94): a strategy whose tool
family is unavailable is skipped. -/
def skipStrategy (env : Env) (s : Strategy) : Bool :=
  (s.tool == "qpdf" && !env.qpdfAvailable) ||
    (s.tool == "ghostscript" && !env.gsAvailable)

/-- Candidate path for a strategy (line 97):
outputPath ++ "." ++ strategy.name ++ ".tmp". -/
def tempOutputPath (outputPath : String) (s : Strategy) : String :=
  outputPath ++ "." ++ s.name ++ ".tmp"

/-- The timeout passed to execAsync (line 129), in milliseconds. -/
def execTimeoutMs : Nat := 60000

/-- The reduction percentage computed at line 137, as an exact
rational:  ((originalSize - compressedSize) / originalSize) * 100. -/
def reductionRatio (orig comp : Nat) : ℚ :=
  ((orig : ℚ) - (comp : ℚ)) / (orig : ℚ) * 100

/-- The seed of the running best (lines 65-73). -/
def initialBest (inputPath : String) (originalSize : Nat) : CompressionResult :=
  { success := false
    outputPath := inputPath
    originalSize := originalSize
    compressedSize := originalSize
    compressionRatio := 0
    strategy := "None"
    error := none }

/-- State threaded through the strategy loop: the filesystem, the
running best, and the list of subprocess invocations made so far
(strategy name, timeout in ms). -/
structure PipeState where
  fs : FS
  best : CompressionResult
  invoked : List (String × Nat)

/-- One iteration of the strategy loop (lines 90-181).  When the tool is
unavailable the strategy is skipped.  Otherwise execAsync runs with a
60s timeout; if it throws, the catch block only logs (the candidate file
is NOT removed).  If it resolves, the candidate size is measured; a
candidate with positive size strictly below the running best size is
adopted (deleting the file backing the previous best, unless that is the
input), and any other candidate file is deleted. -/
def tryStrategy (env : Env) (inputPath outputPath : String)
    (st : PipeState) (s : Strategy) : PipeState :=
  if skipStrategy env s then st
  else
    let tempOutput := tempOutputPath outputPath s
    let invoked := st.invoked ++ [(s.name, execTimeoutMs)]
    match env.outcome s.name with
    | .threw w =>
        { st with fs := applyWrite st.fs tempOutput w, invoked := invoked }
    | .ok w =>
        let fs1 := applyWrite st.fs tempOutput w
        let compressedSize := getFileSize fs1 tempOutput
        if 0 < compressedSize then
          if compressedSize < st.best.compressedSize then
            let fs2 :=
              if st.best.outputPath ≠ inputPath ∧ fsExists fs1 st.best.outputPath then
                fsDel fs1 st.best.outputPath
              else fs1
            { fs := fs2
              best :=
                { success := true
                  outputPath := tempOutput
                  originalSize := st.best.originalSize
                  compressedSize := compressedSize
                  compressionRatio := reductionRatio st.best.originalSize compressedSize
                  strategy := s.name
                  error := none }
              invoked := invoked }
          else
            { st with
                fs := if fsExists fs1 tempOutput then fsDel fs1 tempOutput else fs1
                invoked := invoked }
        else
          { st with
              fs := if fsExists fs1 tempOutput then fsDel fs1 tempOutput else fs1
              invoked := invoked }

/-- The strategy loop as a fold over a catalog fragment. -/
def runStrategies (env : Env) (inputPath outputPath : String)
    (ss : List Strategy) (st : PipeState) : PipeState :=
  ss.foldl (tryStrategy env inputPath outputPath) st

/-- Result of a whole compressPDF call: final filesystem, subprocess
invocations, and either the returned record or the message of a thrown
exception. -/
structure RunResult where
  fs : FS
  invoked : List (String × Nat)
  outcome : Except String CompressionResult

/-- The finalize stage (lines 183-205).  A real winner is renamed to the
output path (renameSync throws when the source is missing or the disk
fails, modelled by renameOk).  Otherwise the original is copied to the
output path (copyFileSync throws when the input is missing or the disk
fails) and the fallback record is built with strategy "None (Fallback)".
A thrown exception propagates out of compressPDF: it is an error
outcome, not a returned record. -/
def finalize (env : Env) (inputPath outputPath : String) (originalSize : Nat)
    (st : PipeState) : RunResult :=
  if st.best.success = true ∧ st.best.outputPath ≠ outputPath then
    if env.renameOk = true ∧ fsExists st.fs st.best.outputPath = true then
      { fs := fsRename st.fs st.best.outputPath outputPath
        invoked := st.invoked
        outcome := .ok { st.best with outputPath := outputPath } }
    else
      { fs := st.fs, invoked := st.invoked, outcome := .error "rename failed" }
  else if st.best.success = false then
    match st.fs inputPath with
    | some b =>
        if env.copyOk = true then
          { fs := fsSet st.fs outputPath b
            invoked := st.invoked
            outcome := .ok
              { success := true
                outputPath := outputPath
                originalSize := originalSize
                compressedSize := originalSize
                compressionRatio := 0
                strategy := "None (Fallback)"
                error := none } }
        else
          { fs := st.fs, invoked := st.invoked, outcome := .error "copy failed" }
    | none =>
        { fs := st.fs, invoked := st.invoked, outcome := .error "copy failed" }
  else
    { fs := st.fs, invoked := st.invoked, outcome := .ok st.best }

/-- The state of the loop after all catalog strategies have been tried,
starting from the seed best (lines 49-181). -/
def loopState (env : Env) (fs0 : FS) (inputPath outputPath : String) : PipeState :=
  runStrategies env inputPath outputPath strategies
    { fs := fs0
      best := initialBest inputPath (getFileSize fs0 inputPath)
      invoked := [] }

/-- compressPDF (lines 49-213): measure the input, try every strategy,
then finalize. -/
def compressPDF (env : Env) (fs0 : FS) (inputPath outputPath : String) : RunResult :=
  finalize env inputPath outputPath (getFileSize fs0 inputPath)
    (loopState env fs0 inputPath outputPath)

/-- Size of the bytes an outcome wrote (0 when nothing was written). -/
def writtenSize : Option Bytes → Nat
  | some b => b.length
  | none => 0

/-- Invariant maintained by the strategy loop: the running best either
still is the seed, or records a genuine strict improvement produced by a
catalog strategy whose candidate file is on disk; the input file is
untouched; and the candidate file of every resolved, available strategy
other than the current best has been removed. -/
structure Inv (env : Env) (fs0 : FS) (inp outp : String) (orig : Nat)
    (st : PipeState) : Prop where
  origEq : st.best.originalSize = orig
  failSeed : st.best.success = false → st.best = initialBest inp orig
  succBound : st.best.success = true →
    0 < st.best.compressedSize ∧ st.best.compressedSize < orig
  succRatio : st.best.success = true →
    st.best.compressionRatio = reductionRatio orig st.best.compressedSize
  succPath : st.best.success = true →
    ∃ s ∈ strategies, st.best.outputPath = tempOutputPath outp s ∧
      st.best.strategy = s.name
  succFile : st.best.success = true → st.fs st.best.outputPath ≠ none
  inputKeep : st.fs inp = fs0 inp
  temps : ∀ s ∈ strategies, skipStrategy env s = false →
    (env.outcome s.name).resolved = true →
    tempOutputPath outp s ≠ st.best.outputPath →
    st.fs (tempOutputPath outp s) = none

/-- A strategy outcome that strictly improves on a bound: the subprocess
resolved and wrote a file whose size is positive and below the bound. -/
def improvesBelow (env : Env) (bound : Nat) (s : Strategy) : Prop :=
  match env.outcome s.name with
  | .ok w => 0 < writtenSize w ∧ writtenSize w < bound
  | .threw _ => False

/-!  Concrete environments used by counterexamples and witnesses. -/

/-- No tool available; every subprocess would throw. -/
def envNoTools : Env :=
  { qpdfAvailable := false, gsAvailable := false,
    outcome := fun _ => .threw none, renameOk := true, copyOk := true }

/-- Only ghostscript available; every subprocess throws without
writing. -/
def envGsFail : Env :=
  { qpdfAvailable := false, gsAvailable := true,
    outcome := fun _ => .threw none, renameOk := true, copyOk := true }

/-- Only ghostscript available; the first strategy throws after a
partial write, the rest throw without writing. -/
def envLeak : Env :=
  { qpdfAvailable := false, gsAvailable := true,
    outcome := fun n =>
      if n = "ghostscript_aggressive" then .threw (some [9]) else .threw none,
    renameOk := true, copyOk := true }

/-- Both tools available; the first strategy wins but the rename to the
final output path fails (for instance the disk is full). -/
def envRenameFail : Env :=
  { qpdfAvailable := true, gsAvailable := true,
    outcome := fun n =>
      if n = "ghostscript_aggressive" then .ok (some [7]) else .threw none,
    renameOk := false, copyOk := true }

/-- Both tools available; the two leading catalog strategies produce
byte-identical output sizes (sz bytes each), everything else fails. -/
def envTie (sz : Nat) : Env :=
  { qpdfAvailable := true, gsAvailable := true,
    outcome := fun n =>
      if n = "ghostscript_aggressive" then .ok (some (List.replicate sz 1))
      else if n = "qpdf_aggressive" then .ok (some (List.replicate sz 2))
      else .threw none,
    renameOk := true, copyOk := true }

/-- A three byte input file at in.pdf. -/
def fsSmall : FS := fsSet fsEmpty "in.pdf" [1, 2, 3]

/-- The record built by the fallback branch of finalize. -/
def fallbackResult (outp : String) (orig : Nat) : CompressionResult :=
  { success := true
    outputPath := outp
    originalSize := orig
    compressedSize := orig
    compressionRatio := 0
    strategy := "None (Fallback)"
    error := none }

/-- The catalog tail after its first strategy. -/
def restStrategies : List Strategy :=
  [ ⟨"qpdf_aggressive", "qpdf"⟩,
    ⟨"ghostscript_ebook", "ghostscript"⟩,
    ⟨"ghostscript_printer", "ghostscript"⟩,
    ⟨"ghostscript_prepress", "ghostscript"⟩,
    ⟨"qpdf_linearize", "qpdf"⟩ ]

/-- Loop state right after the first strategy of the tie scenario has
been adopted as the running best. -/
def tieStepState (orig sz : Nat) : PipeState :=
  { fs := fsSet (fsSet fsEmpty "in.pdf" (List.replicate orig 0))
      (tempOutputPath "out.pdf" ⟨"ghostscript_aggressive", "ghostscript"⟩)
      (List.replicate sz 1)
    best :=
      { success := true
        outputPath := tempOutputPath "out.pdf" ⟨"ghostscript_aggressive", "ghostscript"⟩
        originalSize := orig
        compressedSize := sz
        compressionRatio := reductionRatio orig sz
        strategy := "ghostscript_aggressive"
        error := none }
    invoked := [("ghostscript_aggressive", execTimeoutMs)] }

/-!  Elementary filesystem lemmas. -/

theorem fsSet_apply (fs : FS) (p : String) (b : Bytes) (q : String) :
    fsSet fs p b q = if q = p then some b else fs q := rfl

theorem fsDel_apply (fs : FS) (p : String) (q : String) :
    fsDel fs p q = if q = p then none else fs q := rfl

theorem applyWrite_other (fs : FS) (p : String) (w : Option Bytes) (q : String)
    (h : q ≠ p) : applyWrite fs p w q = fs q := by
  cases w <;> simp [applyWrite, fsSet_apply, h]

theorem getFileSize_applyWrite_self (fs : FS) (p : String) (w : Option Bytes)
    (h : fs p = none) : getFileSize (applyWrite fs p w) p = writtenSize w := by
  cases w <;> simp [applyWrite, getFileSize, fsSet_apply, writtenSize, h]

theorem fsExists_iff (fs : FS) (p : String) :
    fsExists fs p = true ↔ fs p ≠ none := by
  simp [fsExists, Option.isSome_iff_ne_none]

/-!  Candidate path facts. -/

/-- The candidate path of a strategy is never the final output path. -/
theorem tempOutputPath_ne_outputPath (outp : String) (s : Strategy) :
    tempOutputPath outp s ≠ outp := by
  intro h
  have hl := congrArg String.length h
  have h1 : (("." : String)).length = 1 := by decide
  have h4 : ((".tmp" : String)).length = 4 := by decide
  simp [tempOutputPath, String.length_append, h1, h4] at hl
  omega

/-- Candidate paths are determined by, and determine, the strategy
name. -/
theorem tempOutputPath_name_inj {outp : String} {s1 s2 : Strategy}
    (h : tempOutputPath outp s1 = tempOutputPath outp s2) : s1.name = s2.name := by
  have hd := congrArg String.data h
  simp only [tempOutputPath, String.data_append, List.append_assoc] at hd
  have h2 := List.append_cancel_left hd
  have h3 : s1.name.data ++ ['.', 't', 'm', 'p'] = s2.name.data ++ ['.', 't', 'm', 'p'] := by
    simpa using h2
  have h4 := List.append_cancel_right h3
  rcases hn : s1.name with ⟨d1⟩
  rcases hn2 : s2.name with ⟨d2⟩
  rw [hn, hn2] at h4
  simp_all

/-- Catalog entries are determined by their names. -/
theorem strategies_name_inj :
    ∀ s ∈ strategies, ∀ t ∈ strategies, s.name = t.name → s = t := by decide

/-!  Characterization of one loop iteration. -/

theorem tryStrategy_skip (env : Env) (inp outp : String) (st : PipeState)
    (s : Strategy) (h : skipStrategy env s = true) :
    tryStrategy env inp outp st s = st := by
  simp [tryStrategy, h]

theorem tryStrategy_threw (env : Env) (inp outp : String) (st : PipeState)
    (s : Strategy) (w : Option Bytes)
    (h : skipStrategy env s = false) (ho : env.outcome s.name = .threw w) :
    tryStrategy env inp outp st s =
      { st with
          fs := applyWrite st.fs (tempOutputPath outp s) w
          invoked := st.invoked ++ [(s.name, execTimeoutMs)] } := by
  simp [tryStrategy, h, ho]

theorem tryStrategy_ok_adopt (env : Env) (inp outp : String) (st : PipeState)
    (s : Strategy) (w : Option Bytes)
    (h : skipStrategy env s = false) (ho : env.outcome s.name = .ok w)
    (hc1 : 0 < getFileSize (applyWrite st.fs (tempOutputPath outp s) w) (tempOutputPath outp s))
    (hc2 : getFileSize (applyWrite st.fs (tempOutputPath outp s) w) (tempOutputPath outp s) <
      st.best.compressedSize) :
    tryStrategy env inp outp st s =
      (let fs1 := applyWrite st.fs (tempOutputPath outp s) w
       let c := getFileSize fs1 (tempOutputPath outp s)
       { fs :=
           if st.best.outputPath ≠ inp ∧ fsExists fs1 st.best.outputPath then
             fsDel fs1 st.best.outputPath
           else fs1
         best :=
           { success := true
             outputPath := tempOutputPath outp s
             originalSize := st.best.originalSize
             compressedSize := c
             compressionRatio := reductionRatio st.best.originalSize c
             strategy := s.name
             error := none }
         invoked := st.invoked ++ [(s.name, execTimeoutMs)] }) := by
  simp [tryStrategy, h, ho, hc1, hc2]

theorem tryStrategy_ok_stay (env : Env) (inp outp : String) (st : PipeState)
    (s : Strategy) (w : Option Bytes)
    (h : skipStrategy env s = false) (ho : env.outcome s.name = .ok w)
    (hc : ¬ (0 < getFileSize (applyWrite st.fs (tempOutputPath outp s) w) (tempOutputPath outp s) ∧
      getFileSize (applyWrite st.fs (tempOutputPath outp s) w) (tempOutputPath outp s) <
        st.best.compressedSize)) :
    tryStrategy env inp outp st s =
      (let fs1 := applyWrite st.fs (tempOutputPath outp s) w
       { st with
           fs := if fsExists fs1 (tempOutputPath outp s) then
               fsDel fs1 (tempOutputPath outp s)
             else fs1
           invoked := st.invoked ++ [(s.name, execTimeoutMs)] }) := by
  rcases Nat.eq_zero_or_pos
      (getFileSize (applyWrite st.fs (tempOutputPath outp s) w) (tempOutputPath outp s)) with h0 | h0
  · simp [tryStrategy, h, ho, h0]
  · have h2 : ¬ getFileSize (applyWrite st.fs (tempOutputPath outp s) w) (tempOutputPath outp s) <
        st.best.compressedSize := fun hlt => hc ⟨h0, hlt⟩
    simp [tryStrategy, h, ho, h0, h2]

theorem ne_none_of_getFileSize_pos {fs : FS} {p : String}
    (h : 0 < getFileSize fs p) : fs p ≠ none := by
  cases hp : fs p <;> simp [getFileSize, hp] at h ⊢

theorem tryStrategy_inv (env : Env) (fs0 : FS) (inp outp : String) (orig : Nat)
    (st : PipeState) (s : Strategy)
    (hmem : s ∈ strategies)
    (hgood : ∀ t ∈ strategies, tempOutputPath outp t ≠ inp)
    (htb : tempOutputPath outp s ≠ st.best.outputPath)
    (hinv : Inv env fs0 inp outp orig st) :
    Inv env fs0 inp outp orig (tryStrategy env inp outp st s) := by
  by_cases hsk : skipStrategy env s = true
  · rw [tryStrategy_skip env inp outp st s hsk]; exact hinv
  · rw [Bool.not_eq_true] at hsk
    rcases ho : env.outcome s.name with w | w
    · -- resolved: measure the candidate
      by_cases hc : 0 < getFileSize (applyWrite st.fs (tempOutputPath outp s) w)
          (tempOutputPath outp s) ∧
          getFileSize (applyWrite st.fs (tempOutputPath outp s) w)
            (tempOutputPath outp s) < st.best.compressedSize
      · -- adopted as the new best
        rw [tryStrategy_ok_adopt env inp outp st s w hsk ho hc.1 hc.2]
        refine ⟨hinv.origEq, ?_, ?_, ?_, ?_, ?_, ?_, ?_⟩
        · intro h; simp at h
        · intro _
          have hle : st.best.compressedSize ≤ orig := by
            cases hsucc : st.best.success with
            | false =>
                have hseed := hinv.failSeed hsucc
                rw [hseed]
                exact le_rfl
            | true => exact le_of_lt (hinv.succBound hsucc).2
          exact ⟨hc.1, lt_of_lt_of_le hc.2 hle⟩
        · intro _; rw [hinv.origEq]
        · intro _; exact ⟨s, hmem, rfl, rfl⟩
        · intro _
          show (if st.best.outputPath ≠ inp ∧
              fsExists (applyWrite st.fs (tempOutputPath outp s) w) st.best.outputPath then
                fsDel (applyWrite st.fs (tempOutputPath outp s) w) st.best.outputPath
              else applyWrite st.fs (tempOutputPath outp s) w)
              (tempOutputPath outp s) ≠ none
          split
          · rw [fsDel_apply]
            rw [if_neg htb]
            exact ne_none_of_getFileSize_pos hc.1
          · exact ne_none_of_getFileSize_pos hc.1
        · show (if st.best.outputPath ≠ inp ∧
              fsExists (applyWrite st.fs (tempOutputPath outp s) w) st.best.outputPath then
                fsDel (applyWrite st.fs (tempOutputPath outp s) w) st.best.outputPath
              else applyWrite st.fs (tempOutputPath outp s) w) inp = fs0 inp
          have hwr : applyWrite st.fs (tempOutputPath outp s) w inp = fs0 inp := by
            rw [applyWrite_other _ _ _ _ (fun h => hgood s hmem h.symm)]
            exact hinv.inputKeep
          split
          · next hgd =>
              rw [fsDel_apply, if_neg (fun h => hgd.1 h.symm)]
              exact hwr
          · exact hwr
        · intro t htmem htsk htres htb'
          show (if st.best.outputPath ≠ inp ∧
              fsExists (applyWrite st.fs (tempOutputPath outp s) w) st.best.outputPath then
                fsDel (applyWrite st.fs (tempOutputPath outp s) w) st.best.outputPath
              else applyWrite st.fs (tempOutputPath outp s) w)
              (tempOutputPath outp t) = none
          have htbs : tempOutputPath outp t ≠ tempOutputPath outp s := htb'
          have hwr : applyWrite st.fs (tempOutputPath outp s) w (tempOutputPath outp t) =
              st.fs (tempOutputPath outp t) := applyWrite_other _ _ _ _ htbs
          split
          · next hgd =>
              rw [fsDel_apply]
              by_cases hdel : tempOutputPath outp t = st.best.outputPath
              · rw [if_pos hdel]
              · rw [if_neg hdel, hwr]
                exact hinv.temps t htmem htsk htres hdel
          · next hgd =>
              rw [hwr]
              by_cases hdel : tempOutputPath outp t = st.best.outputPath
              · -- the else branch: the previous best is the input or absent
                rcases not_and_or.mp hgd with hbp | hex
                · exact absurd hdel (by
                    rw [not_not] at hbp
                    rw [hbp]
                    exact hgood t htmem)
                · have hnone : applyWrite st.fs (tempOutputPath outp s) w st.best.outputPath = none := by
                    by_contra hne
                    exact hex ((fsExists_iff _ _).mpr hne)
                  rw [← hdel] at hnone
                  rw [hwr] at hnone
                  exact hnone
              · exact hinv.temps t htmem htsk htres hdel
      · -- not adopted: the candidate file is removed
        rw [tryStrategy_ok_stay env inp outp st s w hsk ho hc]
        have hother : ∀ q, q ≠ tempOutputPath outp s →
            (if fsExists (applyWrite st.fs (tempOutputPath outp s) w) (tempOutputPath outp s) then
                fsDel (applyWrite st.fs (tempOutputPath outp s) w) (tempOutputPath outp s)
              else applyWrite st.fs (tempOutputPath outp s) w) q = st.fs q := by
          intro q hq
          have hwr := applyWrite_other st.fs (tempOutputPath outp s) w q hq
          split
          · rw [fsDel_apply, if_neg hq, hwr]
          · exact hwr
        refine ⟨hinv.origEq, hinv.failSeed, hinv.succBound, hinv.succRatio, hinv.succPath,
          ?_, ?_, ?_⟩
        · intro hsucc
          show (if fsExists (applyWrite st.fs (tempOutputPath outp s) w) (tempOutputPath outp s) then
              fsDel (applyWrite st.fs (tempOutputPath outp s) w) (tempOutputPath outp s)
            else applyWrite st.fs (tempOutputPath outp s) w) st.best.outputPath ≠ none
          rw [hother _ (fun h => htb h.symm)]
          exact hinv.succFile hsucc
        · show (if fsExists (applyWrite st.fs (tempOutputPath outp s) w) (tempOutputPath outp s) then
              fsDel (applyWrite st.fs (tempOutputPath outp s) w) (tempOutputPath outp s)
            else applyWrite st.fs (tempOutputPath outp s) w) inp = fs0 inp
          rw [hother _ (fun h => hgood s hmem h.symm)]
          exact hinv.inputKeep
        · intro t htmem htsk htres htb'
          show (if fsExists (applyWrite st.fs (tempOutputPath outp s) w) (tempOutputPath outp s) then
              fsDel (applyWrite st.fs (tempOutputPath outp s) w) (tempOutputPath outp s)
            else applyWrite st.fs (tempOutputPath outp s) w) (tempOutputPath outp t) = none
          by_cases hts : tempOutputPath outp t = tempOutputPath outp s
          · rw [hts]
            split
            · rw [fsDel_apply, if_pos rfl]
            · next hex =>
                have := (fsExists_iff _ _).not.mp (by simpa using hex)
                rw [not_not] at this
                exact this
          · rw [hother _ hts]
            exact hinv.temps t htmem htsk htres htb'
    · -- the subprocess threw: nothing is cleaned up
      rw [tryStrategy_threw env inp outp st s w hsk ho]
      refine ⟨hinv.origEq, hinv.failSeed, hinv.succBound, hinv.succRatio, hinv.succPath,
        ?_, ?_, ?_⟩
      · intro hsucc
        show applyWrite st.fs (tempOutputPath outp s) w st.best.outputPath ≠ none
        rw [applyWrite_other _ _ _ _ (fun h => htb h.symm)]
        exact hinv.succFile hsucc
      · show applyWrite st.fs (tempOutputPath outp s) w inp = fs0 inp
        rw [applyWrite_other _ _ _ _ (fun h => hgood s hmem h.symm)]
        exact hinv.inputKeep
      · intro t htmem htsk htres htb'
        show applyWrite st.fs (tempOutputPath outp s) w (tempOutputPath outp t) = none
        by_cases hts : t.name = s.name
        · exfalso
          rw [hts, ho] at htres
          simp [ExecOutcome.resolved] at htres
        · have htts : tempOutputPath outp t ≠ tempOutputPath outp s :=
            fun h => hts (tempOutputPath_name_inj h)
          rw [applyWrite_other _ _ _ _ htts]
          exact hinv.temps t htmem htsk htres htb'

/-- The outputPath of a successful running best is always some
candidate path (hence neither the input nor the final output path). -/
theorem Inv.bestPath_cases {env : Env} {fs0 : FS} {inp outp : String} {orig : Nat}
    {st : PipeState} (hinv : Inv env fs0 inp outp orig st) :
    st.best.success = false ∨
      ∃ s ∈ strategies, st.best.outputPath = tempOutputPath outp s := by
  cases hsucc : st.best.success with
  | false => exact Or.inl rfl
  | true =>
      rcases hinv.succPath hsucc with ⟨s, hmem, hpath, _⟩
      exact Or.inr ⟨s, hmem, hpath⟩

theorem runStrategies_inv (env : Env) (fs0 : FS) (inp outp : String) (orig : Nat) :
    ∀ (ss : List Strategy) (st : PipeState),
    (∀ s ∈ ss, s ∈ strategies) →
    ss.Pairwise (fun a b => a.name ≠ b.name) →
    (∀ s ∈ ss, tempOutputPath outp s ≠ st.best.outputPath) →
    (∀ t ∈ strategies, tempOutputPath outp t ≠ inp) →
    Inv env fs0 inp outp orig st →
    Inv env fs0 inp outp orig (runStrategies env inp outp ss st)
  | [], st, _, _, _, _, hinv => hinv
  | s :: ss, st, hsub, hpw, htb, hgood, hinv => by
      rw [runStrategies, List.foldl_cons]
      have hmem : s ∈ strategies := hsub s (List.mem_cons_self s ss)
      have hstep := tryStrategy_inv env fs0 inp outp orig st s hmem hgood
        (htb s (List.mem_cons_self s ss)) hinv
      have hpw' := (List.pairwise_cons.mp hpw)
      refine runStrategies_inv env fs0 inp outp orig ss
        (tryStrategy env inp outp st s)
        (fun t ht => hsub t (List.mem_cons_of_mem s ht)) hpw'.2 ?_ hgood hstep
      intro t ht
      -- the new best path is either the old one or the candidate of s
      rcases hstep.bestPath_cases with hfail | ⟨u, humem, hupath⟩
      · have := hstep.failSeed hfail
        rw [this]
        exact hgood t (hsub t (List.mem_cons_of_mem s ht))
      · rw [hupath]
        intro heq
        have hn := tempOutputPath_name_inj heq
        -- u is either s or carries the old best path
        rcases hinv.bestPath_cases with hfail0 | ⟨v, hvmem, hvpath⟩
        · -- before the step the best was the seed; the step either kept it
          -- (path = input) or adopted s itself
          by_cases hus : u.name = s.name
          · have hts : t.name = s.name := hn.trans hus
            exact (hpw'.1 t ht) hts.symm
          · -- the step kept the seed best, so its path is the input
            exfalso
            by_cases hsk : skipStrategy env s = true
            · rw [tryStrategy_skip env inp outp st s hsk] at hupath
              have hseed := hinv.failSeed hfail0
              have : st.best.outputPath = inp := by rw [hseed]; rfl
              rw [this] at hupath
              exact hgood u humem hupath.symm
            · rw [Bool.not_eq_true] at hsk
              rcases ho : env.outcome s.name with w | w
              · by_cases hc : 0 < getFileSize (applyWrite st.fs (tempOutputPath outp s) w)
                    (tempOutputPath outp s) ∧
                    getFileSize (applyWrite st.fs (tempOutputPath outp s) w)
                      (tempOutputPath outp s) < st.best.compressedSize
                · rw [tryStrategy_ok_adopt env inp outp st s w hsk ho hc.1 hc.2] at hupath
                  exact hus (tempOutputPath_name_inj hupath.symm)
                · rw [tryStrategy_ok_stay env inp outp st s w hsk ho hc] at hupath
                  have hseed := hinv.failSeed hfail0
                  have : st.best.outputPath = inp := by rw [hseed]; rfl
                  rw [this] at hupath
                  exact hgood u humem hupath.symm
              · rw [tryStrategy_threw env inp outp st s w hsk ho] at hupath
                have hseed := hinv.failSeed hfail0
                have : st.best.outputPath = inp := by rw [hseed]; rfl
                rw [this] at hupath
                exact hgood u humem hupath.symm
        · -- before the step the best was the candidate of some v;
          -- afterwards it is the candidate of s or still of v
          by_cases hus : u.name = s.name
          · exact (hpw'.1 t ht) (hn.trans hus).symm
          · -- the step did not adopt, so the best path is unchanged
            have hold : tempOutputPath outp u = st.best.outputPath := by
              by_cases hsk : skipStrategy env s = true
              · rw [tryStrategy_skip env inp outp st s hsk] at hupath
                exact hupath.symm
              · rw [Bool.not_eq_true] at hsk
                rcases ho : env.outcome s.name with w | w
                · by_cases hc : 0 < getFileSize (applyWrite st.fs (tempOutputPath outp s) w)
                      (tempOutputPath outp s) ∧
                      getFileSize (applyWrite st.fs (tempOutputPath outp s) w)
                        (tempOutputPath outp s) < st.best.compressedSize
                  · rw [tryStrategy_ok_adopt env inp outp st s w hsk ho hc.1 hc.2] at hupath
                    exact absurd (tempOutputPath_name_inj hupath.symm) hus
                  · rw [tryStrategy_ok_stay env inp outp st s w hsk ho hc] at hupath
                    exact hupath.symm
                · rw [tryStrategy_threw env inp outp st s w hsk ho] at hupath
                  exact hupath.symm
            exact htb t (List.mem_cons_of_mem s ht) (heq.trans hold)

/-- The catalog names are pairwise distinct. -/
theorem strategies_pairwise :
    strategies.Pairwise (fun a b => a.name ≠ b.name) := by decide

/-- After the full loop the invariant holds. -/
theorem loopState_inv (env : Env) (fs0 : FS) (inp outp : String)
    (hgood : ∀ s ∈ strategies, tempOutputPath outp s ≠ inp)
    (htemps0 : ∀ s ∈ strategies, fs0 (tempOutputPath outp s) = none) :
    Inv env fs0 inp outp (getFileSize fs0 inp) (loopState env fs0 inp outp) := by
  rw [loopState]
  refine runStrategies_inv env fs0 inp outp (getFileSize fs0 inp) strategies _
    (fun s hs => hs) strategies_pairwise (fun s hs => hgood s hs) hgood ?_
  refine ⟨rfl, fun _ => rfl, ?_, ?_, ?_, ?_, rfl, ?_⟩
  · intro h; simp [initialBest] at h
  · intro h; simp [initialBest] at h
  · intro h; simp [initialBest] at h
  · intro h; simp [initialBest] at h
  · intro s hs _ _ _
    exact htemps0 s hs

/-- If no remaining strategy strictly improves on the current best size
(and no stale candidate files are lying around), the running best never
changes, and no path outside the remaining candidates is touched. -/
theorem runStrategies_keep (env : Env) (inp outp : String) :
    ∀ (ss : List Strategy) (st : PipeState),
    ss.Pairwise (fun a b => a.name ≠ b.name) →
    (∀ s ∈ ss, st.fs (tempOutputPath outp s) = none) →
    (∀ s ∈ ss, skipStrategy env s = false → ¬ improvesBelow env st.best.compressedSize s) →
    (runStrategies env inp outp ss st).best = st.best ∧
      ∀ q, (∀ s ∈ ss, q ≠ tempOutputPath outp s) →
        (runStrategies env inp outp ss st).fs q = st.fs q
  | [], st, _, _, _ => ⟨rfl, fun _ _ => rfl⟩
  | s :: ss, st, hpw, habs, hni => by
      rw [runStrategies, List.foldl_cons]
      have hpw' := List.pairwise_cons.mp hpw
      have hsmem := List.mem_cons_self s ss
      -- first show the head step keeps the best and only touches its
      -- own candidate path
      have hstep : (tryStrategy env inp outp st s).best = st.best ∧
          ∀ q, q ≠ tempOutputPath outp s →
            (tryStrategy env inp outp st s).fs q = st.fs q := by
        by_cases hsk : skipStrategy env s = true
        · rw [tryStrategy_skip env inp outp st s hsk]
          exact ⟨rfl, fun _ _ => rfl⟩
        · rw [Bool.not_eq_true] at hsk
          rcases ho : env.outcome s.name with w | w
          · have hcsize : getFileSize (applyWrite st.fs (tempOutputPath outp s) w)
                (tempOutputPath outp s) = writtenSize w :=
              getFileSize_applyWrite_self st.fs (tempOutputPath outp s) w (habs s hsmem)
            have hc : ¬ (0 < getFileSize (applyWrite st.fs (tempOutputPath outp s) w)
                (tempOutputPath outp s) ∧
                getFileSize (applyWrite st.fs (tempOutputPath outp s) w)
                  (tempOutputPath outp s) < st.best.compressedSize) := by
              rw [hcsize]
              intro hcon
              exact hni s hsmem hsk (by rw [improvesBelow, ho]; exact hcon)
            rw [tryStrategy_ok_stay env inp outp st s w hsk ho hc]
            refine ⟨rfl, fun q hq => ?_⟩
            show (if fsExists (applyWrite st.fs (tempOutputPath outp s) w)
                (tempOutputPath outp s) then
                  fsDel (applyWrite st.fs (tempOutputPath outp s) w) (tempOutputPath outp s)
                else applyWrite st.fs (tempOutputPath outp s) w) q = st.fs q
            have hwr := applyWrite_other st.fs (tempOutputPath outp s) w q hq
            split
            · rw [fsDel_apply, if_neg hq, hwr]
            · exact hwr
          · rw [tryStrategy_threw env inp outp st s w hsk ho]
            exact ⟨rfl, fun q hq => applyWrite_other st.fs (tempOutputPath outp s) w q hq⟩
      have htail := runStrategies_keep env inp outp ss (tryStrategy env inp outp st s)
        hpw'.2
        (fun t ht => by
          rw [hstep.2 (tempOutputPath outp t)
            (fun h => (hpw'.1 t ht) (tempOutputPath_name_inj h).symm)]
          exact habs t (List.mem_cons_of_mem s ht))
        (fun t ht hskt => by
          rw [hstep.1]
          exact hni t (List.mem_cons_of_mem s ht) hskt)
      rw [runStrategies] at htail
      refine ⟨htail.1.trans hstep.1, fun q hq => ?_⟩
      rw [htail.2 q (fun t ht => hq t (List.mem_cons_of_mem s ht))]
      exact hstep.2 q (hq s hsmem)

/-- The loop appends one invocation entry, carrying the 60 second
timeout, for exactly the strategies whose tool family is available, in
catalog order, regardless of outcomes. -/
theorem runStrategies_invoked (env : Env) (inp outp : String) :
    ∀ (ss : List Strategy) (st : PipeState),
    (runStrategies env inp outp ss st).invoked =
      st.invoked ++ (ss.filter (fun s => !skipStrategy env s)).map
        (fun s => (s.name, execTimeoutMs))
  | [], st => by simp [runStrategies]
  | s :: ss, st => by
      rw [runStrategies, List.foldl_cons]
      have hstep : (tryStrategy env inp outp st s).invoked =
          if skipStrategy env s then st.invoked
          else st.invoked ++ [(s.name, execTimeoutMs)] := by
        by_cases hsk : skipStrategy env s = true
        · rw [tryStrategy_skip env inp outp st s hsk, if_pos hsk]
        · rw [Bool.not_eq_true] at hsk
          rw [if_neg (by simp [hsk])]
          rcases ho : env.outcome s.name with w | w
          · by_cases hc : 0 < getFileSize (applyWrite st.fs (tempOutputPath outp s) w)
                (tempOutputPath outp s) ∧
                getFileSize (applyWrite st.fs (tempOutputPath outp s) w)
                  (tempOutputPath outp s) < st.best.compressedSize
            · rw [tryStrategy_ok_adopt env inp outp st s w hsk ho hc.1 hc.2]
            · rw [tryStrategy_ok_stay env inp outp st s w hsk ho hc]
          · rw [tryStrategy_threw env inp outp st s w hsk ho]
      have htail := runStrategies_invoked env inp outp ss (tryStrategy env inp outp st s)
      rw [runStrategies] at htail
      rw [htail, hstep]
      by_cases hsk : skipStrategy env s = true
      · rw [if_pos hsk]
        rw [List.filter_cons_of_neg (by simp [hsk])]
      · rw [Bool.not_eq_true] at hsk
        rw [if_neg (by simp [hsk])]
        rw [List.filter_cons_of_pos (by simp [hsk])]
        simp

/-- When the running best has size 0 (a missing or empty input) no
candidate can ever be adopted: the comparison would need a size below
zero.  The best is therefore unchanged and only candidate paths are
touched. -/
theorem runStrategies_zero (env : Env) (inp outp : String) :
    ∀ (ss : List Strategy) (st : PipeState),
    st.best.compressedSize = 0 →
    (runStrategies env inp outp ss st).best = st.best ∧
      ∀ q, (∀ s ∈ ss, q ≠ tempOutputPath outp s) →
        (runStrategies env inp outp ss st).fs q = st.fs q
  | [], st, _ => ⟨rfl, fun _ _ => rfl⟩
  | s :: ss, st, hz => by
      rw [runStrategies, List.foldl_cons]
      have hsmem := List.mem_cons_self s ss
      have hstep : (tryStrategy env inp outp st s).best = st.best ∧
          ∀ q, q ≠ tempOutputPath outp s →
            (tryStrategy env inp outp st s).fs q = st.fs q := by
        by_cases hsk : skipStrategy env s = true
        · rw [tryStrategy_skip env inp outp st s hsk]
          exact ⟨rfl, fun _ _ => rfl⟩
        · rw [Bool.not_eq_true] at hsk
          rcases ho : env.outcome s.name with w | w
          · have hc : ¬ (0 < getFileSize (applyWrite st.fs (tempOutputPath outp s) w)
                (tempOutputPath outp s) ∧
                getFileSize (applyWrite st.fs (tempOutputPath outp s) w)
                  (tempOutputPath outp s) < st.best.compressedSize) := by
              rw [hz]
              omega
            rw [tryStrategy_ok_stay env inp outp st s w hsk ho hc]
            refine ⟨rfl, fun q hq => ?_⟩
            show (if fsExists (applyWrite st.fs (tempOutputPath outp s) w)
                (tempOutputPath outp s) then
                  fsDel (applyWrite st.fs (tempOutputPath outp s) w) (tempOutputPath outp s)
                else applyWrite st.fs (tempOutputPath outp s) w) q = st.fs q
            have hwr := applyWrite_other st.fs (tempOutputPath outp s) w q hq
            split
            · rw [fsDel_apply, if_neg hq, hwr]
            · exact hwr
          · rw [tryStrategy_threw env inp outp st s w hsk ho]
            exact ⟨rfl, fun q hq => applyWrite_other st.fs (tempOutputPath outp s) w q hq⟩
      have htail := runStrategies_zero env inp outp ss (tryStrategy env inp outp st s)
        (by rw [hstep.1]; exact hz)
      rw [runStrategies] at htail
      refine ⟨htail.1.trans hstep.1, fun q hq => ?_⟩
      rw [htail.2 q (fun t ht => hq t (List.mem_cons_of_mem s ht))]
      exact hstep.2 q (hq s hsmem)

/-- Finalize never touches the invocation log. -/
theorem finalize_invoked (env : Env) (inp outp : String) (orig : Nat)
    (st : PipeState) : (finalize env inp outp orig st).invoked = st.invoked := by
  unfold finalize
  split
  · split <;> rfl
  · split
    · split
      · split <;> rfl
      · rfl
    · rfl

/-- Every record finalize hands back has success set. -/
theorem finalize_ok_success (env : Env) (inp outp : String) (orig : Nat)
    (st : PipeState) (r : CompressionResult)
    (h : (finalize env inp outp orig st).outcome = Except.ok r) :
    r.success = true := by
  unfold finalize at h
  split at h
  · next hcond =>
      split at h
      · simp only [Except.ok.injEq] at h
        rw [← h]
        exact hcond.1
      · simp at h
  · next hcond =>
      split at h
      · next hfail =>
          split at h
          · split at h
            · simp only [Except.ok.injEq] at h
              rw [← h]
            · simp at h
          · simp at h
      · next hfail =>
          simp only [Except.ok.injEq] at h
          rw [← h]
          rw [Bool.not_eq_false] at hfail
          exact hfail

/-- The reduction percentage of a strict improvement lies strictly
between 0 and 100. -/
theorem reductionRatio_pos_lt (o c : Nat) (h1 : 0 < c) (h2 : c < o) :
    0 < reductionRatio o c ∧ reductionRatio o c < 100 := by
  have ho : (0 : ℚ) < (o : ℚ) := by exact_mod_cast h1.trans h2
  have hc : (0 : ℚ) < (c : ℚ) := by exact_mod_cast h1
  have hco : (c : ℚ) < (o : ℚ) := by exact_mod_cast h2
  constructor
  · exact mul_pos (div_pos (by linarith) ho) (by norm_num)
  · have h3 : ((o : ℚ) - (c : ℚ)) / (o : ℚ) < 1 := by
      rw [div_lt_one ho]
      linarith
    have h4 : ((o : ℚ) - (c : ℚ)) / (o : ℚ) * 100 < 1 * 100 :=
      mul_lt_mul_of_pos_right h3 (by norm_num)
    rw [reductionRatio]
    linarith

/-!  ## C7 -/

/-- C7 counterexample: the candidate path is NOT distinct from every
input path.  With outputPath = o and inputPath = o.ghostscript_aggressive.tmp
the candidate path of the first strategy equals the input path, so the
claimed distinctness from inputPath fails for this input. -/
theorem c7_counterexample :
    tempOutputPath "o" ⟨"ghostscript_aggressive", "ghostscript"⟩ =
      "o.ghostscript_aggressive.tmp" := rfl

/-- C7 amended: the candidate path is a deterministic function of the
output path and of the strategy name alone, is injective in the name, is
always distinct from the final output path, and is distinct from the
input path whenever the input path is not itself of the candidate form
outputPath.name.tmp. -/
theorem c7_amended :
    (∀ (outp : String) (s : Strategy), tempOutputPath outp s ≠ outp) ∧
    (∀ (outp : String) (s t : Strategy), s.name = t.name →
      tempOutputPath outp s = tempOutputPath outp t) ∧
    (∀ (outp : String) (s t : Strategy), tempOutputPath outp s = tempOutputPath outp t →
      s.name = t.name) ∧
    (∀ (outp inp : String) (s : Strategy), inp ≠ tempOutputPath outp s →
      tempOutputPath outp s ≠ inp) := by
  refine ⟨tempOutputPath_ne_outputPath, ?_, ?_, ?_⟩
  · intro outp s t h
    rw [tempOutputPath, tempOutputPath, h]
  · intro outp s t h
    exact tempOutputPath_name_inj h
  · intro outp inp s h
    exact h.symm

/-- C7 witness: concrete instantiation of the amended statement. -/
theorem c7_witness :
    tempOutputPath "out.pdf" ⟨"qpdf_aggressive", "qpdf"⟩ ≠ "out.pdf" ∧
    (⟨"qpdf_aggressive", "qpdf"⟩ : Strategy).name =
      (⟨"qpdf_aggressive", "x"⟩ : Strategy).name ∧
    tempOutputPath "out.pdf" ⟨"qpdf_aggressive", "qpdf"⟩ =
      tempOutputPath "out.pdf" ⟨"qpdf_aggressive", "x"⟩ ∧
    tempOutputPath "out.pdf" ⟨"qpdf_aggressive", "qpdf"⟩ ≠ "in.pdf" := by
  refine ⟨c7_amended.1 "out.pdf" _, by decide, ?_, ?_⟩
  · exact c7_amended.2.1 "out.pdf" _ _ (by decide)
  · exact c7_amended.2.2.2 "out.pdf" "in.pdf" _ (by decide)

/-!  ## C8 -/

/-- C8: a strategy whose required tool family is unavailable is skipped:
the loop state (filesystem, running best including its error field, and
the subprocess invocation log) is unchanged, and iterating the catalog
simply continues with the remaining strategies. -/
theorem c8_skip_silent (env : Env) (inp outp : String) (st : PipeState)
    (s : Strategy) (h : skipStrategy env s = true) :
    tryStrategy env inp outp st s = st ∧
    ∀ ss : List Strategy,
      runStrategies env inp outp (s :: ss) st = runStrategies env inp outp ss st := by
  refine ⟨tryStrategy_skip env inp outp st s h, fun ss => ?_⟩
  rw [runStrategies, List.foldl_cons, tryStrategy_skip env inp outp st s h, runStrategies]

/-- C8 witness: with no tool installed the first catalog strategy is
skipped and the loop state survives untouched. -/
theorem c8_witness :
    tryStrategy envNoTools "in.pdf" "out.pdf"
        { fs := fsSmall, best := initialBest "in.pdf" 3, invoked := [] }
        ⟨"ghostscript_aggressive", "ghostscript"⟩ =
      { fs := fsSmall, best := initialBest "in.pdf" 3, invoked := [] } :=
  (c8_skip_silent envNoTools "in.pdf" "out.pdf"
    { fs := fsSmall, best := initialBest "in.pdf" 3, invoked := [] }
    ⟨"ghostscript_aggressive", "ghostscript"⟩ (by decide)).1

/-!  ## C9 -/

/-- C9: whenever compressPDF returns a record rather than throwing, that
record has success = true; a failure of the pipeline only ever surfaces
as a thrown exception, never as a returned success = false value. -/
theorem c9_returned_success (env : Env) (fs0 : FS) (inp outp : String)
    (r : CompressionResult)
    (h : (compressPDF env fs0 inp outp).outcome = Except.ok r) :
    r.success = true :=
  finalize_ok_success env inp outp (getFileSize fs0 inp)
    (loopState env fs0 inp outp) r h

/-- C9 witness: the fallback run with no tools returns a record and its
success flag is set. -/
theorem c9_witness :
    ({ success := true, outputPath := "out.pdf", originalSize := 3,
       compressedSize := 3, compressionRatio := 0,
       strategy := "None (Fallback)", error := none } : CompressionResult).success = true :=
  c9_returned_success envNoTools fsSmall "in.pdf" "out.pdf" _ rfl

/-!  ## C3 -/

/-- C3 counterexample: with a missing input file and ghostscript
available, compressPDF does NOT return success = false: it still invokes
the subprocesses of every available strategy and then throws from the
fallback copy, so the call rejects instead of returning, contrary to the
claim that no strategy is attempted and a success = false record is
returned. -/
theorem c3_counterexample :
    (compressPDF envGsFail fsEmpty "in.pdf" "out.pdf").outcome =
      Except.error "copy failed" ∧
    (compressPDF envGsFail fsEmpty "in.pdf" "out.pdf").invoked =
      [("ghostscript_aggressive", 60000), ("ghostscript_ebook", 60000),
       ("ghostscript_printer", 60000), ("ghostscript_prepress", 60000)] ∧
    (compressPDF envGsFail fsEmpty "in.pdf" "out.pdf").invoked ≠ [] :=
  ⟨rfl, rfl, by decide⟩

/-- C3 amended: on a missing or zero-length input the measured size is
0, so no candidate is ever adopted (adoption would need a size strictly
below 0); available strategies are still executed, and the pipeline
falls through to the fallback copy, which throws for a missing input
(the call rejects with no returned record) and returns success = true
with sizes 0 for an existing zero-length input. -/
theorem c3_amended (env : Env) (fs0 : FS) (inp outp : String)
    (hzero : getFileSize fs0 inp = 0)
    (hgood : ∀ s ∈ strategies, tempOutputPath outp s ≠ inp) :
    (fs0 inp = none →
      (compressPDF env fs0 inp outp).outcome = Except.error "copy failed") ∧
    (∀ b, fs0 inp = some b → env.copyOk = true →
      (compressPDF env fs0 inp outp).outcome = Except.ok
        { success := true, outputPath := outp, originalSize := 0,
          compressedSize := 0, compressionRatio := 0,
          strategy := "None (Fallback)", error := none }) := by
  have hrun := runStrategies_zero env inp outp strategies
    { fs := fs0, best := initialBest inp (getFileSize fs0 inp), invoked := [] }
    hzero
  have hbest : (loopState env fs0 inp outp).best =
      initialBest inp (getFileSize fs0 inp) := by
    rw [loopState]
    exact hrun.1
  have hinp : (loopState env fs0 inp outp).fs inp = fs0 inp := by
    rw [loopState]
    exact hrun.2 inp (fun s hs => (hgood s hs).symm)
  have hnc1 : ¬ ((loopState env fs0 inp outp).best.success = true ∧
      (loopState env fs0 inp outp).best.outputPath ≠ outp) := by
    intro hcon
    rw [hbest] at hcon
    simp [initialBest] at hcon
  have hc2 : (loopState env fs0 inp outp).best.success = false := by
    rw [hbest]
    rfl
  constructor
  · intro hnone
    show (finalize env inp outp (getFileSize fs0 inp)
      (loopState env fs0 inp outp)).outcome = Except.error "copy failed"
    unfold finalize
    rw [if_neg hnc1, if_pos hc2, hinp, hnone]
  · intro b hb hcopy
    show (finalize env inp outp (getFileSize fs0 inp)
      (loopState env fs0 inp outp)).outcome = _
    unfold finalize
    rw [if_neg hnc1, if_pos hc2, hinp, hb]
    simp [hcopy, hzero]

/-- C3 witness: a zero-length input that exists yields the fallback
record with sizes 0 (no success = false return), while the counterexample
covers the missing-input half. -/
theorem c3_witness :
    (compressPDF envGsFail (fsSet fsEmpty "in.pdf" []) "in.pdf" "out.pdf").outcome =
      Except.ok
        { success := true, outputPath := "out.pdf", originalSize := 0,
          compressedSize := 0, compressionRatio := 0,
          strategy := "None (Fallback)", error := none } :=
  (c3_amended envGsFail (fsSet fsEmpty "in.pdf" []) "in.pdf" "out.pdf"
    (by decide) (by decide)).2 [] (by decide) (by decide)

/-!  ## C2 -/

/-- C2 counterexample: when no tool is available the fallback record is
returned, but its strategy field is the sentinel None (Fallback), not
the claimed string none. -/
theorem c2_counterexample :
    (compressPDF envNoTools fsSmall "in.pdf" "out.pdf").outcome = Except.ok
      { success := true, outputPath := "out.pdf", originalSize := 3,
        compressedSize := 3, compressionRatio := 0,
        strategy := "None (Fallback)", error := none } ∧
    ("None (Fallback)" : String) ≠ "none" :=
  ⟨rfl, by decide⟩

/-- C2 amended: whenever no executed strategy strictly improves on the
original size (in particular whenever no tool is available), compressPDF
returns success = true, compressedSize equal to originalSize,
compressionRatio 0, strategy equal to the sentinel None (Fallback), and
the file at outputPath is byte-identical to the input. -/
theorem c2_amended (env : Env) (fs0 : FS) (inp outp : String) (content : Bytes)
    (hin : fs0 inp = some content)
    (hgood : ∀ s ∈ strategies, tempOutputPath outp s ≠ inp)
    (htemps0 : ∀ s ∈ strategies, fs0 (tempOutputPath outp s) = none)
    (hni : ∀ s ∈ strategies, skipStrategy env s = false →
      ¬ improvesBelow env content.length s)
    (hcopy : env.copyOk = true) :
    (compressPDF env fs0 inp outp).outcome = Except.ok
      { success := true, outputPath := outp, originalSize := content.length,
        compressedSize := content.length, compressionRatio := 0,
        strategy := "None (Fallback)", error := none } ∧
    (compressPDF env fs0 inp outp).fs outp = some content := by
  have horig : getFileSize fs0 inp = content.length := by
    rw [getFileSize, hin]
  have hni2 : ∀ s ∈ strategies, skipStrategy env s = false →
      ¬ improvesBelow env
        (({ fs := fs0, best := initialBest inp (getFileSize fs0 inp),
            invoked := [] } : PipeState).best.compressedSize) s := by
    intro s hs hsk
    show ¬ improvesBelow env (getFileSize fs0 inp) s
    rw [horig]
    exact hni s hs hsk
  have hrun := runStrategies_keep env inp outp strategies
    { fs := fs0, best := initialBest inp (getFileSize fs0 inp), invoked := [] }
    strategies_pairwise htemps0 hni2
  have hbest : (loopState env fs0 inp outp).best =
      initialBest inp (getFileSize fs0 inp) := by
    rw [loopState]
    exact hrun.1
  have hinp : (loopState env fs0 inp outp).fs inp = fs0 inp := by
    rw [loopState]
    exact hrun.2 inp (fun s hs => (hgood s hs).symm)
  have hnc1 : ¬ ((loopState env fs0 inp outp).best.success = true ∧
      (loopState env fs0 inp outp).best.outputPath ≠ outp) := by
    intro hcon
    rw [hbest] at hcon
    simp [initialBest] at hcon
  have hc2 : (loopState env fs0 inp outp).best.success = false := by
    rw [hbest]
    rfl
  constructor
  · show (finalize env inp outp (getFileSize fs0 inp)
      (loopState env fs0 inp outp)).outcome = _
    unfold finalize
    rw [if_neg hnc1, if_pos hc2, hinp, hin]
    simp [hcopy, horig]
  · show (finalize env inp outp (getFileSize fs0 inp)
      (loopState env fs0 inp outp)).fs outp = some content
    unfold finalize
    rw [if_neg hnc1, if_pos hc2, hinp, hin]
    simp only [hcopy, if_true]
    show fsSet (loopState env fs0 inp outp).fs outp content outp = some content
    rw [fsSet_apply, if_pos rfl]

/-- C2 witness: the no-tools environment on a three byte input returns
the fallback record and an output byte-identical to the input. -/
theorem c2_witness :
    (compressPDF envNoTools fsSmall "in.pdf" "out.pdf").outcome = Except.ok
      { success := true, outputPath := "out.pdf", originalSize := 3,
        compressedSize := 3, compressionRatio := 0,
        strategy := "None (Fallback)", error := none } ∧
    (compressPDF envNoTools fsSmall "in.pdf" "out.pdf").fs "out.pdf" = some [1, 2, 3] :=
  c2_amended envNoTools fsSmall "in.pdf" "out.pdf" [1, 2, 3]
    (by decide) (by decide) (by decide)
    (fun s hs hsk => by
      exfalso
      fin_cases hs <;> simp [skipStrategy, envNoTools] at hsk) (by decide)

/-!  ## C4 -/

/-- C4 counterexample: the first strategy throws after a partial write
(for instance a timeout); the pipeline returns normally, yet the
candidate file of the failed strategy is still on disk, contradicting
the claim that candidates of failed executions are deleted before
return. -/
theorem c4_counterexample :
    fsExists (compressPDF envLeak fsSmall "in.pdf" "out.pdf").fs
      "out.pdf.ghostscript_aggressive.tmp" = true ∧
    (compressPDF envLeak fsSmall "in.pdf" "out.pdf").outcome = Except.ok
      { success := true, outputPath := "out.pdf", originalSize := 3,
        compressedSize := 3, compressionRatio := 0,
        strategy := "None (Fallback)", error := none } :=
  ⟨by decide, rfl⟩

/-- C4 amended: every candidate file of a strategy whose execAsync call
RESOLVED is gone from disk when compressPDF returns a record (it was
deleted when losing or empty, deleted when superseded, or renamed away
as the winner); a candidate left behind by an execAsync call that threw
is not covered, as the counterexample shows. -/
theorem c4_amended (env : Env) (fs0 : FS) (inp outp : String)
    (hgood : ∀ s ∈ strategies, tempOutputPath outp s ≠ inp)
    (htemps0 : ∀ s ∈ strategies, fs0 (tempOutputPath outp s) = none)
    (r : CompressionResult)
    (h : (compressPDF env fs0 inp outp).outcome = Except.ok r) :
    ∀ s ∈ strategies, skipStrategy env s = false →
      (env.outcome s.name).resolved = true →
      (compressPDF env fs0 inp outp).fs (tempOutputPath outp s) = none := by
  intro s hs hsk hres
  have hinv := loopState_inv env fs0 inp outp hgood htemps0
  by_cases hc1 : (loopState env fs0 inp outp).best.success = true ∧
      (loopState env fs0 inp outp).best.outputPath ≠ outp
  · by_cases hrn : env.renameOk = true ∧
        fsExists (loopState env fs0 inp outp).fs
          (loopState env fs0 inp outp).best.outputPath = true
    · have hfs : (compressPDF env fs0 inp outp).fs =
          fsRename (loopState env fs0 inp outp).fs
            (loopState env fs0 inp outp).best.outputPath outp := by
        show (finalize env inp outp (getFileSize fs0 inp)
          (loopState env fs0 inp outp)).fs = _
        unfold finalize
        rw [if_pos hc1, if_pos hrn]
      rw [hfs]
      have hsome := hinv.succFile hc1.1
      rcases hsrc : (loopState env fs0 inp outp).fs
          (loopState env fs0 inp outp).best.outputPath with _ | b
      · exact absurd hsrc hsome
      · rw [fsRename, hsrc]
        show fsSet (fsDel (loopState env fs0 inp outp).fs
          (loopState env fs0 inp outp).best.outputPath) outp b
          (tempOutputPath outp s) = none
        by_cases heq : tempOutputPath outp s = (loopState env fs0 inp outp).best.outputPath
        · rw [fsSet_apply, if_neg (tempOutputPath_ne_outputPath outp s),
            fsDel_apply, if_pos heq]
        · rw [fsSet_apply, if_neg (tempOutputPath_ne_outputPath outp s),
            fsDel_apply, if_neg heq]
          exact hinv.temps s hs hsk hres heq
    · exfalso
      have : (compressPDF env fs0 inp outp).outcome = Except.error "rename failed" := by
        show (finalize env inp outp (getFileSize fs0 inp)
          (loopState env fs0 inp outp)).outcome = _
        unfold finalize
        rw [if_pos hc1, if_neg hrn]
      rw [this] at h
      simp at h
  · by_cases hs2 : (loopState env fs0 inp outp).best.success = false
    · have hseed := hinv.failSeed hs2
      have hpath : (loopState env fs0 inp outp).best.outputPath = inp := by
        rw [hseed]
        rfl
      rcases hfi : (loopState env fs0 inp outp).fs inp with _ | b
      · exfalso
        have : (compressPDF env fs0 inp outp).outcome = Except.error "copy failed" := by
          show (finalize env inp outp (getFileSize fs0 inp)
            (loopState env fs0 inp outp)).outcome = _
          unfold finalize
          rw [if_neg hc1, if_pos hs2, hfi]
        rw [this] at h
        simp at h
      · by_cases hcp : env.copyOk = true
        · have hfs : (compressPDF env fs0 inp outp).fs =
              fsSet (loopState env fs0 inp outp).fs outp b := by
            show (finalize env inp outp (getFileSize fs0 inp)
              (loopState env fs0 inp outp)).fs = _
            unfold finalize
            rw [if_neg hc1, if_pos hs2, hfi]
            simp [hcp]
          rw [hfs, fsSet_apply, if_neg (tempOutputPath_ne_outputPath outp s)]
          refine hinv.temps s hs hsk hres ?_
          rw [hpath]
          exact hgood s hs
        · exfalso
          have : (compressPDF env fs0 inp outp).outcome = Except.error "copy failed" := by
            show (finalize env inp outp (getFileSize fs0 inp)
              (loopState env fs0 inp outp)).outcome = _
            unfold finalize
            rw [if_neg hc1, if_pos hs2, hfi]
            simp [hcp]
          rw [this] at h
          simp at h
    · exfalso
      rw [Bool.not_eq_false] at hs2
      rcases hinv.succPath hs2 with ⟨u, _, hupath, _⟩
      exact hc1 ⟨hs2, by rw [hupath]; exact tempOutputPath_ne_outputPath outp u⟩

/-- C4 witness: in a run where the winning strategy resolved, its
candidate file has been renamed away and the losing resolved candidate
was deleted. -/
theorem c4_witness :
    (compressPDF (envTie 2) (fsSet fsEmpty "in.pdf" (List.replicate 5 0))
      "in.pdf" "out.pdf").fs
      (tempOutputPath "out.pdf" ⟨"qpdf_aggressive", "qpdf"⟩) = none :=
  c4_amended (envTie 2) (fsSet fsEmpty "in.pdf" (List.replicate 5 0))
    "in.pdf" "out.pdf" (by decide) (by decide) _ rfl
    ⟨"qpdf_aggressive", "qpdf"⟩ (by decide) (by decide) (by decide)

/-!  ## C5 -/

/-- C5: the executor passes a 60000 ms timeout to every subprocess
invocation; a missing or unwritten output file is measured as size 0 (so
a failed attempt contributes size 0 and never wins); every available
strategy in the catalog is invoked exactly once, in catalog order,
regardless of how earlier strategies fail (throwing executions do not
stop the iteration); and the pipeline still returns a record whenever
the input exists and the finalize filesystem operations succeed. -/
theorem c5_executor (env : Env) (fs0 : FS) (inp outp : String) :
    execTimeoutMs = 60000 ∧
    (∀ (fs : FS) (p : String), fs p = none → getFileSize fs p = 0) ∧
    (compressPDF env fs0 inp outp).invoked =
      (strategies.filter (fun s => !skipStrategy env s)).map
        (fun s => (s.name, execTimeoutMs)) ∧
    ((∀ s ∈ strategies, tempOutputPath outp s ≠ inp) →
      (∀ s ∈ strategies, fs0 (tempOutputPath outp s) = none) →
      env.renameOk = true → env.copyOk = true →
      ∀ b, fs0 inp = some b →
        ∃ r, (compressPDF env fs0 inp outp).outcome = Except.ok r) := by
  refine ⟨rfl, ?_, ?_, ?_⟩
  · intro fs p hp
    rw [getFileSize, hp]
  · show (finalize env inp outp (getFileSize fs0 inp)
      (loopState env fs0 inp outp)).invoked = _
    rw [finalize_invoked, loopState, runStrategies_invoked]
    rfl
  · intro hgood htemps0 hren hcopy b hb
    have hinv := loopState_inv env fs0 inp outp hgood htemps0
    cases hsucc : (loopState env fs0 inp outp).best.success with
    | true =>
        have hc1 : (loopState env fs0 inp outp).best.success = true ∧
            (loopState env fs0 inp outp).best.outputPath ≠ outp := by
          refine ⟨hsucc, ?_⟩
          rcases hinv.succPath hsucc with ⟨u, _, hupath, _⟩
          rw [hupath]
          exact tempOutputPath_ne_outputPath outp u
        have hrn : env.renameOk = true ∧
            fsExists (loopState env fs0 inp outp).fs
              (loopState env fs0 inp outp).best.outputPath = true :=
          ⟨hren, (fsExists_iff _ _).mpr (hinv.succFile hsucc)⟩
        refine ⟨{ (loopState env fs0 inp outp).best with outputPath := outp }, ?_⟩
        show (finalize env inp outp (getFileSize fs0 inp)
          (loopState env fs0 inp outp)).outcome = _
        unfold finalize
        rw [if_pos hc1, if_pos hrn]
    | false =>
        have hc1 : ¬ ((loopState env fs0 inp outp).best.success = true ∧
            (loopState env fs0 inp outp).best.outputPath ≠ outp) := by
          intro hcon
          rw [hsucc] at hcon
          simp at hcon
        have hfi : (loopState env fs0 inp outp).fs inp = some b := by
          rw [hinv.inputKeep]
          exact hb
        refine Exists.intro
          ({ success := true, outputPath := outp,
             originalSize := getFileSize fs0 inp, compressedSize := getFileSize fs0 inp,
             compressionRatio := 0, strategy := "None (Fallback)",
             error := none } : CompressionResult) ?_
        show (finalize env inp outp (getFileSize fs0 inp)
          (loopState env fs0 inp outp)).outcome = _
        unfold finalize
        rw [if_neg hc1, if_pos hsucc, hfi]
        simp [hcopy]

/-- C5 witness: with only ghostscript available and every subprocess
throwing, all four ghostscript strategies are invoked with the 60 second
timeout and the pipeline still returns a record. -/
theorem c5_witness :
    execTimeoutMs = 60000 ∧
    getFileSize fsEmpty "missing.pdf" = 0 ∧
    (compressPDF envGsFail fsSmall "in.pdf" "out.pdf").invoked =
      (strategies.filter (fun s => !skipStrategy envGsFail s)).map
        (fun s => (s.name, execTimeoutMs)) ∧
    ∃ r, (compressPDF envGsFail fsSmall "in.pdf" "out.pdf").outcome = Except.ok r :=
  ⟨(c5_executor envGsFail fsSmall "in.pdf" "out.pdf").1,
   (c5_executor envGsFail fsSmall "in.pdf" "out.pdf").2.1 fsEmpty "missing.pdf" rfl,
   (c5_executor envGsFail fsSmall "in.pdf" "out.pdf").2.2.1,
   (c5_executor envGsFail fsSmall "in.pdf" "out.pdf").2.2.2
     (by decide) (by decide) rfl rfl [1, 2, 3] (by decide)⟩

/-!  ## C6 -/

/-- C6 counterexample: when the finalize rename fails the pipeline does
NOT return success = false with temp files cleaned: it throws, and the
winning candidate file is still on disk. -/
theorem c6_counterexample :
    (compressPDF envRenameFail fsSmall "in.pdf" "out.pdf").outcome =
      Except.error "rename failed" ∧
    fsExists (compressPDF envRenameFail fsSmall "in.pdf" "out.pdf").fs
      "out.pdf.ghostscript_aggressive.tmp" = true :=
  ⟨rfl, by decide⟩

/-- C6 amended: a finalize-stage filesystem failure makes compressPDF
throw (no record, in particular no success = false record, is ever
returned with success unset), and on the rename-failure path the winning
candidate temp file is left on disk rather than cleaned up. -/
theorem c6_amended (env : Env) (fs0 : FS) (inp outp : String)
    (hgood : ∀ s ∈ strategies, tempOutputPath outp s ≠ inp)
    (htemps0 : ∀ s ∈ strategies, fs0 (tempOutputPath outp s) = none) :
    (∀ r, (compressPDF env fs0 inp outp).outcome = Except.ok r → r.success = true) ∧
    ((loopState env fs0 inp outp).best.success = true → env.renameOk = false →
      (compressPDF env fs0 inp outp).outcome = Except.error "rename failed" ∧
      (compressPDF env fs0 inp outp).fs
        (loopState env fs0 inp outp).best.outputPath ≠ none) ∧
    ((loopState env fs0 inp outp).best.success = false → env.copyOk = false →
      (compressPDF env fs0 inp outp).outcome = Except.error "copy failed") := by
  have hinv := loopState_inv env fs0 inp outp hgood htemps0
  refine ⟨?_, ?_, ?_⟩
  · intro r h
    exact finalize_ok_success env inp outp (getFileSize fs0 inp)
      (loopState env fs0 inp outp) r h
  · intro hsucc hren
    have hc1 : (loopState env fs0 inp outp).best.success = true ∧
        (loopState env fs0 inp outp).best.outputPath ≠ outp := by
      refine ⟨hsucc, ?_⟩
      rcases hinv.succPath hsucc with ⟨u, _, hupath, _⟩
      rw [hupath]
      exact tempOutputPath_ne_outputPath outp u
    have hrn : ¬ (env.renameOk = true ∧
        fsExists (loopState env fs0 inp outp).fs
          (loopState env fs0 inp outp).best.outputPath = true) := by
      intro hcon
      rw [hren] at hcon
      simp at hcon
    constructor
    · show (finalize env inp outp (getFileSize fs0 inp)
        (loopState env fs0 inp outp)).outcome = _
      unfold finalize
      rw [if_pos hc1, if_neg hrn]
    · have hfs : (compressPDF env fs0 inp outp).fs = (loopState env fs0 inp outp).fs := by
        show (finalize env inp outp (getFileSize fs0 inp)
          (loopState env fs0 inp outp)).fs = _
        unfold finalize
        rw [if_pos hc1, if_neg hrn]
      rw [hfs]
      exact hinv.succFile hsucc
  · intro hsucc hcp
    have hc1 : ¬ ((loopState env fs0 inp outp).best.success = true ∧
        (loopState env fs0 inp outp).best.outputPath ≠ outp) := by
      intro hcon
      rw [hsucc] at hcon
      simp at hcon
    show (finalize env inp outp (getFileSize fs0 inp)
      (loopState env fs0 inp outp)).outcome = _
    unfold finalize
    rw [if_neg hc1, if_pos hsucc]
    rcases hfi : (loopState env fs0 inp outp).fs inp with _ | b
    · rfl
    · simp [hcp]

/-- C6 witness: a concrete run whose rename fails throws and leaves the
winning candidate on disk. -/
theorem c6_witness :
    (compressPDF envRenameFail fsSmall "in.pdf" "out.pdf").outcome =
      Except.error "rename failed" ∧
    (compressPDF envRenameFail fsSmall "in.pdf" "out.pdf").fs
      (loopState envRenameFail fsSmall "in.pdf" "out.pdf").best.outputPath ≠ none :=
  (c6_amended envRenameFail fsSmall "in.pdf" "out.pdf" (by decide) (by decide)).2.1
    (by decide) rfl

/-!  ## C10 -/

/-- C10: every record compressPDF returns satisfies
compressedSize less-or-equal originalSize and a compression ratio in
[0, 100), with compressedSize = originalSize and ratio = 0 exactly when
the fallback path was taken (no strategy strictly improved, so the loop
ended with the seed best). -/
theorem c10_result_bounds (env : Env) (fs0 : FS) (inp outp : String)
    (hgood : ∀ s ∈ strategies, tempOutputPath outp s ≠ inp)
    (htemps0 : ∀ s ∈ strategies, fs0 (tempOutputPath outp s) = none)
    (r : CompressionResult)
    (h : (compressPDF env fs0 inp outp).outcome = Except.ok r) :
    r.compressedSize ≤ r.originalSize ∧
    0 ≤ r.compressionRatio ∧ r.compressionRatio < 100 ∧
    (r.compressedSize = r.originalSize ↔
      (loopState env fs0 inp outp).best.success = false) ∧
    (r.compressionRatio = 0 ↔
      (loopState env fs0 inp outp).best.success = false) := by
  have hinv := loopState_inv env fs0 inp outp hgood htemps0
  by_cases hc1 : (loopState env fs0 inp outp).best.success = true ∧
      (loopState env fs0 inp outp).best.outputPath ≠ outp
  · by_cases hrn : env.renameOk = true ∧
        fsExists (loopState env fs0 inp outp).fs
          (loopState env fs0 inp outp).best.outputPath = true
    · have hr : r = { (loopState env fs0 inp outp).best with outputPath := outp } := by
        have : (compressPDF env fs0 inp outp).outcome =
            Except.ok { (loopState env fs0 inp outp).best with outputPath := outp } := by
          show (finalize env inp outp (getFileSize fs0 inp)
            (loopState env fs0 inp outp)).outcome = _
          unfold finalize
          rw [if_pos hc1, if_pos hrn]
        rw [this] at h
        simp only [Except.ok.injEq] at h
        exact h.symm
      have hbnd := hinv.succBound hc1.1
      have horat := hinv.succRatio hc1.1
      have hratio := reductionRatio_pos_lt (getFileSize fs0 inp)
        (loopState env fs0 inp outp).best.compressedSize hbnd.1 hbnd.2
      have hcs : r.compressedSize = (loopState env fs0 inp outp).best.compressedSize := by
        rw [hr]
      have hos : r.originalSize = getFileSize fs0 inp := by
        rw [hr]
        exact hinv.origEq
      have hrat : r.compressionRatio = reductionRatio (getFileSize fs0 inp)
          (loopState env fs0 inp outp).best.compressedSize := by
        rw [hr]
        exact horat
      refine ⟨?_, ?_, ?_, ?_, ?_⟩
      · rw [hcs, hos]
        exact le_of_lt hbnd.2
      · rw [hrat]
        exact le_of_lt hratio.1
      · rw [hrat]
        exact hratio.2
      · rw [hcs, hos, hc1.1]
        constructor
        · intro heq
          exact absurd heq (Nat.ne_of_lt hbnd.2)
        · intro heq
          cases heq
      · rw [hrat, hc1.1]
        constructor
        · intro heq
          exact absurd heq.symm (ne_of_lt hratio.1)
        · intro heq
          cases heq
    · exfalso
      have : (compressPDF env fs0 inp outp).outcome = Except.error "rename failed" := by
        show (finalize env inp outp (getFileSize fs0 inp)
          (loopState env fs0 inp outp)).outcome = _
        unfold finalize
        rw [if_pos hc1, if_neg hrn]
      rw [this] at h
      simp at h
  · by_cases hs2 : (loopState env fs0 inp outp).best.success = false
    · rcases hfi : (loopState env fs0 inp outp).fs inp with _ | b
      · exfalso
        have : (compressPDF env fs0 inp outp).outcome = Except.error "copy failed" := by
          show (finalize env inp outp (getFileSize fs0 inp)
            (loopState env fs0 inp outp)).outcome = _
          unfold finalize
          rw [if_neg hc1, if_pos hs2, hfi]
        rw [this] at h
        simp at h
      · by_cases hcp : env.copyOk = true
        · have hr : r = fallbackResult outp (getFileSize fs0 inp) := by
            have : (compressPDF env fs0 inp outp).outcome =
                Except.ok (fallbackResult outp (getFileSize fs0 inp)) := by
              show (finalize env inp outp (getFileSize fs0 inp)
                (loopState env fs0 inp outp)).outcome = _
              unfold finalize
              rw [if_neg hc1, if_pos hs2, hfi]
              simp [hcp, fallbackResult]
            rw [this] at h
            simp only [Except.ok.injEq] at h
            exact h.symm
          rw [hr, hs2]
          refine ⟨le_rfl, le_rfl, by norm_num [fallbackResult], ?_, ?_⟩
          · simp [fallbackResult]
          · simp [fallbackResult]
        · exfalso
          have : (compressPDF env fs0 inp outp).outcome = Except.error "copy failed" := by
            show (finalize env inp outp (getFileSize fs0 inp)
              (loopState env fs0 inp outp)).outcome = _
            unfold finalize
            rw [if_neg hc1, if_pos hs2, hfi]
            simp [hcp]
          rw [this] at h
          simp at h
    · exfalso
      rw [Bool.not_eq_false] at hs2
      rcases hinv.succPath hs2 with ⟨u, _, hupath, _⟩
      exact hc1 ⟨hs2, by rw [hupath]; exact tempOutputPath_ne_outputPath outp u⟩

/-- C10 witness: the no-tools fallback run satisfies the bounds with
equality and zero ratio, and its loop best is indeed still the seed. -/
theorem c10_witness :
    ({ success := true, outputPath := "out.pdf", originalSize := 3,
       compressedSize := 3, compressionRatio := 0,
       strategy := "None (Fallback)", error := none } : CompressionResult).compressedSize ≤
      ({ success := true, outputPath := "out.pdf", originalSize := 3,
         compressedSize := 3, compressionRatio := 0,
         strategy := "None (Fallback)", error := none } : CompressionResult).originalSize ∧
    (0 : ℚ) ≤ 0 ∧ (0 : ℚ) < 100 ∧
    ((3 : Nat) = 3 ↔ (loopState envNoTools fsSmall "in.pdf" "out.pdf").best.success = false) ∧
    ((0 : ℚ) = 0 ↔ (loopState envNoTools fsSmall "in.pdf" "out.pdf").best.success = false) :=
  c10_result_bounds envNoTools fsSmall "in.pdf" "out.pdf"
    (by decide) (by decide) _ rfl

/-!  ## C1 -/

/-- Helper for the tie-break: when the two leading strategies both
resolve with outputs of the same size sz (0 < sz < orig) and the rest
fail, the winner is the catalog-earlier ghostscript_aggressive. -/
theorem tiebreak_first_wins (orig sz : Nat) (h1 : 0 < sz) (h2 : sz < orig) :
    (compressPDF (envTie sz) (fsSet fsEmpty "in.pdf" (List.replicate orig 0))
      "in.pdf" "out.pdf").outcome =
      Except.ok
        { success := true, outputPath := "out.pdf", originalSize := orig,
          compressedSize := sz, compressionRatio := reductionRatio orig sz,
          strategy := "ghostscript_aggressive", error := none } := by
  have horig : getFileSize (fsSet fsEmpty "in.pdf" (List.replicate orig 0)) "in.pdf" =
      orig := by
    simp [getFileSize, fsSet_apply]
  have hsk : skipStrategy (envTie sz) ⟨"ghostscript_aggressive", "ghostscript"⟩ = false := by
    simp [skipStrategy, envTie]
  have ho : (envTie sz).outcome "ghostscript_aggressive" =
      ExecOutcome.ok (some (List.replicate sz 1)) := by
    simp [envTie]
  have htmpA : (fsSet fsEmpty "in.pdf" (List.replicate orig 0))
      (tempOutputPath "out.pdf" ⟨"ghostscript_aggressive", "ghostscript"⟩) = none := by
    rw [fsSet_apply, if_neg (by decide)]
    rfl
  have hsize : getFileSize
      (applyWrite (fsSet fsEmpty "in.pdf" (List.replicate orig 0))
        (tempOutputPath "out.pdf" ⟨"ghostscript_aggressive", "ghostscript"⟩)
        (some (List.replicate sz 1)))
      (tempOutputPath "out.pdf" ⟨"ghostscript_aggressive", "ghostscript"⟩) = sz := by
    rw [getFileSize_applyWrite_self _ _ _ htmpA]
    simp [writtenSize]
  have hsizeSet : getFileSize
      (fsSet (fsSet fsEmpty "in.pdf" (List.replicate orig 0))
        (tempOutputPath "out.pdf" ⟨"ghostscript_aggressive", "ghostscript"⟩)
        (List.replicate sz 1))
      (tempOutputPath "out.pdf" ⟨"ghostscript_aggressive", "ghostscript"⟩) = sz := hsize
  have hstep : tryStrategy (envTie sz) "in.pdf" "out.pdf"
      { fs := fsSet fsEmpty "in.pdf" (List.replicate orig 0),
        best := initialBest "in.pdf" orig, invoked := [] }
      ⟨"ghostscript_aggressive", "ghostscript"⟩ = tieStepState orig sz := by
    simp [tryStrategy, hsk, ho, hsizeSet, h1, h2, initialBest, applyWrite, tieStepState]
  have hkeep := runStrategies_keep (envTie sz) "in.pdf" "out.pdf"
    restStrategies (tieStepState orig sz)
    (by decide)
    (by
      intro s hs
      fin_cases hs <;>
        · simp only [tieStepState]
          rw [fsSet_apply, if_neg (by decide), fsSet_apply, if_neg (by decide)]
          rfl)
    (by
      intro s hs hsks
      fin_cases hs <;> simp [improvesBelow, envTie, writtenSize, tieStepState])
  have hfileval : (runStrategies (envTie sz) "in.pdf" "out.pdf"
      restStrategies (tieStepState orig sz)).fs
      (tempOutputPath "out.pdf" ⟨"ghostscript_aggressive", "ghostscript"⟩) =
      some (List.replicate sz 1) := by
    rw [hkeep.2 _ (by decide)]
    simp only [tieStepState]
    rw [fsSet_apply, if_pos rfl]
  show (finalize (envTie sz) "in.pdf" "out.pdf"
    (getFileSize (fsSet fsEmpty "in.pdf" (List.replicate orig 0)) "in.pdf")
    (loopState (envTie sz) (fsSet fsEmpty "in.pdf" (List.replicate orig 0))
      "in.pdf" "out.pdf")).outcome = _
  unfold loopState
  rw [horig]
  rw [show strategies = (⟨"ghostscript_aggressive", "ghostscript"⟩ : Strategy) ::
    restStrategies from rfl]
  rw [runStrategies, List.foldl_cons, hstep, ← runStrategies]
  unfold finalize
  rw [if_pos ?hc1, if_pos ?hrn]
  case hc1 =>
    rw [hkeep.1]
    exact ⟨rfl, (by decide :
      tempOutputPath "out.pdf" ⟨"ghostscript_aggressive", "ghostscript"⟩ ≠ "out.pdf")⟩
  case hrn =>
    refine ⟨rfl, ?_⟩
    rw [hkeep.1]
    show ((runStrategies (envTie sz) "in.pdf" "out.pdf" restStrategies
      (tieStepState orig sz)).fs
      (tempOutputPath "out.pdf" ⟨"ghostscript_aggressive", "ghostscript"⟩)).isSome = true
    rw [hfileval]
    rfl
  show Except.ok _ = _
  rw [hkeep.1]
  rfl

/-- The selector adopts a resolved candidate exactly when its measured
size is strictly positive and strictly below the running best size. -/
theorem selector_replace_iff (env : Env) (inp outp : String) (st : PipeState)
    (s : Strategy) (w : Option Bytes)
    (hsk : skipStrategy env s = false)
    (ho : env.outcome s.name = ExecOutcome.ok w) :
    (tryStrategy env inp outp st s).best =
      (if 0 < getFileSize (applyWrite st.fs (tempOutputPath outp s) w)
            (tempOutputPath outp s) ∧
          getFileSize (applyWrite st.fs (tempOutputPath outp s) w)
            (tempOutputPath outp s) < st.best.compressedSize
       then
         { success := true
           outputPath := tempOutputPath outp s
           originalSize := st.best.originalSize
           compressedSize :=
             getFileSize (applyWrite st.fs (tempOutputPath outp s) w)
               (tempOutputPath outp s)
           compressionRatio :=
             reductionRatio st.best.originalSize
               (getFileSize (applyWrite st.fs (tempOutputPath outp s) w)
                 (tempOutputPath outp s))
           strategy := s.name
           error := none }
       else st.best) := by
  by_cases hc : 0 < getFileSize (applyWrite st.fs (tempOutputPath outp s) w)
      (tempOutputPath outp s) ∧
      getFileSize (applyWrite st.fs (tempOutputPath outp s) w)
        (tempOutputPath outp s) < st.best.compressedSize
  · rw [tryStrategy_ok_adopt env inp outp st s w hsk ho hc.1 hc.2, if_pos hc]
  · rw [tryStrategy_ok_stay env inp outp st s w hsk ho hc, if_neg hc]

/-- C1: the running best is seeded with the original size (success
unset); a resolved candidate replaces the best exactly when its size is
strictly positive and strictly below the current best size, so a
same-size or larger candidate never wins, including over the original;
and when two strategies produce byte-identical output sizes the one
earlier in catalog order is selected. -/
theorem c1_best_selector :
    (∀ (inp : String) (orig : Nat),
      (initialBest inp orig).compressedSize = orig ∧
        (initialBest inp orig).success = false) ∧
    (∀ (env : Env) (inp outp : String) (st : PipeState) (s : Strategy)
      (w : Option Bytes),
      skipStrategy env s = false → env.outcome s.name = ExecOutcome.ok w →
      (tryStrategy env inp outp st s).best =
        (if 0 < getFileSize (applyWrite st.fs (tempOutputPath outp s) w)
              (tempOutputPath outp s) ∧
            getFileSize (applyWrite st.fs (tempOutputPath outp s) w)
              (tempOutputPath outp s) < st.best.compressedSize
         then
           { success := true
             outputPath := tempOutputPath outp s
             originalSize := st.best.originalSize
             compressedSize :=
               getFileSize (applyWrite st.fs (tempOutputPath outp s) w)
                 (tempOutputPath outp s)
             compressionRatio :=
               reductionRatio st.best.originalSize
                 (getFileSize (applyWrite st.fs (tempOutputPath outp s) w)
                   (tempOutputPath outp s))
             strategy := s.name
             error := none }
         else st.best)) ∧
    (∀ orig sz : Nat, 0 < sz → sz < orig →
      (compressPDF (envTie sz) (fsSet fsEmpty "in.pdf" (List.replicate orig 0))
        "in.pdf" "out.pdf").outcome =
        Except.ok
          { success := true, outputPath := "out.pdf", originalSize := orig,
            compressedSize := sz, compressionRatio := reductionRatio orig sz,
            strategy := "ghostscript_aggressive", error := none }) :=
  ⟨fun _ _ => ⟨rfl, rfl⟩, selector_replace_iff, tiebreak_first_wins⟩

/-- C1 witness: concrete tie at sizes 10 and 5; the catalog-earlier
ghostscript pass wins and the seed carries the original size. -/
theorem c1_witness :
    (initialBest "in.pdf" 10).compressedSize = 10 ∧
    (compressPDF (envTie 5) (fsSet fsEmpty "in.pdf" (List.replicate 10 0))
      "in.pdf" "out.pdf").outcome =
      Except.ok
        { success := true, outputPath := "out.pdf", originalSize := 10,
          compressedSize := 5, compressionRatio := reductionRatio 10 5,
          strategy := "ghostscript_aggressive", error := none } :=
  ⟨(c1_best_selector.1 "in.pdf" 10).1,
   c1_best_selector.2.2 10 5 (by decide) (by decide)⟩

end Foldr
